import Mathlib

/-!
# Verification of the SoS prior overwrite tooling

A shallow embedding of the two modules of the repository:

* `overwrite.py` — the merge engine (`Overwrite`): routing of a prior source
  to a group path (`determine_group`), identifier retrieval (`retrieve_ids`),
  the argsort/searchsorted offset resolution, the write of prior values into
  the SoS variables, the read-back verification, and the per-group status
  reporting of the `overwrite` loop.
* `store.py` — the exchange-file builder (`PriorStore`): the static prior
  category lists, dimension creation (`create_dimensions`), variable shaping
  (`create_variables`), group naming, and the file-name computation of
  `create_netcdf`.

Numeric prior values are modelled as rationals (`Val`); identifier and time
label arrays are integer lists (time labels appear after the source's
`astype(int)` cast).  NumPy / netCDF4 indexing primitives are modelled as
list operations: `np.argsort` as a stable index sort, `np.searchsorted`
(side "left") as the count of smaller elements of a sorted list, fancy
integer-array assignment on one axis as a sequential `List.set` fold, the
orthogonal two-axis assignment `var[rows, cols] = vec` of netCDF4 as the
same row update applied to every selected row, and the NumPy pointwise
fancy read `arr[rows, cols]` as a zipped lookup.
-/

/-- Numeric type of prior values. -/
abbrev Val := ℚ

/-- Relative tolerance of `np.allclose` (default `1e-05`). -/
def rtol : Val := 1 / 100000

/-- Absolute tolerance of `np.allclose` (default `1e-08`). -/
def atol : Val := 1 / 100000000

/-- Model of `np.allclose a b`: elementwise `|a - b| <= atol + rtol * |b|`.
Arrays of distinct lengths are never close. -/
def allclose (a b : List Val) : Bool :=
  decide (a.length = b.length) &&
    (a.zip b).all (fun p => decide (|p.1 - p.2| ≤ atol + rtol * |p.2|))

/-! ## Offset resolution (overwrite.py lines 109-110 and 116-117)

`np.argsort` is modelled as an insertion sort of the index list
`[0, ..., n-1)` ordered by the pointed-to values (ties broken by index,
which agrees with NumPy on the duplicate-free arrays the tool is run on).
-/

/-- Comparison of two indices of `l` by value, ties broken by index. -/
def idxLe (l : List Int) (i j : Nat) : Bool :=
  decide (l.getD i 0 < l.getD j 0) ||
    (decide (l.getD i 0 = l.getD j 0) && decide (i ≤ j))

/-- Insert index `i` into an index list sorted by `le`. -/
def insertIdx (le : Nat → Nat → Bool) (i : Nat) : List Nat → List Nat
  | [] => [i]
  | j :: js => if le i j then i :: j :: js else j :: insertIdx le i js

/-- Insertion sort of an index list by `le`. -/
def isortIdx (le : Nat → Nat → Bool) : List Nat → List Nat
  | [] => []
  | i :: is => insertIdx le i (isortIdx le is)

/-- Model of `np.argsort l`: the indices of `l` sorted by value. -/
def argsort (l : List Int) : List Nat :=
  isortIdx (idxLe l) (List.range l.length)

/-- Model of `np.searchsorted l v` (side `"left"`) on a sorted list: the
leftmost insertion point of `v`. -/
def searchsorted (l : List Int) (v : Int) : Nat :=
  match l with
  | [] => 0
  | x :: xs => if x < v then searchsorted xs v + 1 else 0

/-- `l[p]` for an index list `p`: the fancy-indexing gather `l[sorter]`. -/
def applyPerm (l : List Int) (p : List Nat) : List Int :=
  p.map (fun i => l.getD i 0)

/-- Lines 109-110 (and likewise 116-117) of `overwrite.py`:
`sorter = np.argsort(store_ids)` followed by
`sorter[np.searchsorted(store_ids, source_ids, sorter=sorter)]`. -/
def resolve_offsets (store_ids source_ids : List Int) : List Nat :=
  let sorter := argsort store_ids
  source_ids.map (fun v => sorter.getD (searchsorted (applyPerm store_ids sorter) v) 0)

/-! ## Write primitives -/

/-- `row.set` folded over position/value pairs: the elementary update. -/
def setPairs (row : List Val) (ps : List (Nat × Val)) : List Val :=
  ps.foldl (fun r cv => r.set cv.1 cv.2) row

/-- Model of the one-axis fancy assignment `arr[cols] = vals`. -/
def writeVec (row : List Val) (cols : List Nat) (vals : List Val) : List Val :=
  setPairs row (cols.zip vals)

/-- Model of the netCDF4 orthogonal two-axis assignment
`var[rows, cols] = vals` with a one-dimensional right-hand side `vals`:
every selected row receives `vals` at the selected columns (the
right-hand side is broadcast along the row axis). -/
def writeGrid (grid : List (List Val)) (rows cols : List Nat) (vals : List Val) :
    List (List Val) :=
  rows.foldl (fun g r => g.set r (writeVec (g.getD r []) cols vals)) grid

/-- Model of the one-axis fancy read `arr[idxs]`. -/
def readAt (xs : List Val) (idxs : List Nat) : List Val :=
  idxs.map (fun i => xs.getD i 0)

/-- Model of the NumPy pointwise fancy read `arr[rows, cols]` on a plain
array (line 119 of `overwrite.py` reads `[:]` first, so NumPy pairwise
indexing applies there, not the orthogonal netCDF4 kind). -/
def readPairs (grid : List (List Val)) (rows cols : List Nat) : List Val :=
  (rows.zip cols).map (fun rc => (grid.getD rc.1 []).getD rc.2 0)

/-! ## Data model of the merge engine (overwrite.py) -/

/-- The identifier variable carried by an exchange-file group: groups either
carry a `reach_id` variable or (for gbnode node-level priors) a `node_id`
variable — line 104 of `overwrite.py` branches on which one is present. -/
inductive IdVariable where
  | reach (ids : List Int)
  | node (ids : List Int)
deriving DecidableEq

/-- The payload of a group: `timed` when the group carries a `value_t`
variable (line 113), otherwise `scalar`.  Time labels are integers (the
source casts them with `astype(int)`). -/
inductive PayloadData where
  | scalar (values : List Val)
  | timed (values : List (List Val)) (value_t : List (List Int))
deriving DecidableEq

/-- One group of the exchange file as read by the merge loop (lines 92-96):
`source` and `prior` are the parsed halves of the group name, `indexes` is
the precomputed destination offset variable, `payload` the prior values. -/
structure PriorGroup where
  source : String
  prior : String
  run_type : String
  idVar : IdVariable
  indexes : List Nat
  payload : PayloadData
deriving DecidableEq

/-- The open SoS dataset, restricted to what one group's processing touches:
the identifier tables, the destination variable addressed by
`sos_ds[group][prior]` (`priorVar1` without, `priorVar2` with a time axis),
and `sos_t`, the first row of `sos_ds[group][prior + "t"]` after
`astype(int)` (line 115 uses only row `[0]`). -/
structure SosStore where
  nodes_node_id : List Int
  usgs_reach_id : List Int
  grdc_reach_id : List Int
  reaches_reach_id : List Int
  priorVar1 : List Val
  priorVar2 : List (List Val)
  sos_t : List Int
deriving DecidableEq

/-- `Overwrite.determine_group` (overwrite.py lines 42-62). -/
def determine_group (source : String) : String :=
  if source = "wbm" ∨ source = "grades" then "model"
  else if source = "grdc" then "model/grdc"
  else if source = "gbreach" then "gbpriors/reach"
  else if source = "gbnode" then "gbpriors/node"
  else "model/usgs"

/-- `Overwrite.retrieve_ids` (overwrite.py lines 135-158); the group's
`reach_id` variable is passed in place of the dataset it is read from. -/
def retrieve_ids (source : String) (reach_ids : List Int) (sos : SosStore) :
    List Int × List Int :=
  if source = "usgs" then (reach_ids, sos.usgs_reach_id)
  else if source = "grdc" then (reach_ids, sos.grdc_reach_id)
  else (reach_ids, sos.reaches_reach_id)

/-- Lines 104-108 of `overwrite.py`: the identifier pair used by the
verification — `retrieve_ids` when the group has a `reach_id` variable,
node identifiers otherwise. -/
def testIds (g : PriorGroup) (sos : SosStore) : List Int × List Int :=
  match g.idVar with
  | .reach ids => retrieve_ids g.source ids sos
  | .node ids => (ids, sos.nodes_node_id)

/-- Lines 109-110 of `overwrite.py`: the recomputed verification offsets. -/
def test_indexes (g : PriorGroup) (sos : SosStore) : List Nat :=
  resolve_offsets (testIds g sos).2 (testIds g sos).1

/-- Result of processing one group: the mutated store and the verification
outcome `success`. -/
structure StepResult where
  sos : SosStore
  success : Bool
deriving DecidableEq

/-- Lines 104-122 of `overwrite.py`: process one group against its open SoS
dataset — recompute verification offsets from the identifier variable,
write the payload at the precomputed `indexes` (aligning the time axis
first when a `value_t` variable is present, in which case the value
written is `data[0]`, the first payload row), and read back at the
recomputed offsets to decide `success`. -/
def overwriteStep (g : PriorGroup) (sos : SosStore) : StepResult :=
  let tIdx := test_indexes g sos
  match g.payload with
  | .timed values value_t =>
    let prior_t := value_t.headD []
    let index_t := resolve_offsets sos.sos_t prior_t
    let newVar := writeGrid sos.priorVar2 g.indexes index_t (values.headD [])
    { sos := { sos with priorVar2 := newVar },
      success := allclose (values.headD []) (readPairs newVar tIdx index_t) }
  | .scalar values =>
    let newVar := writeVec sos.priorVar1 g.indexes values
    { sos := { sos with priorVar1 := newVar },
      success := allclose values (readAt newVar tIdx) }

/-- Lines 124-130 of `overwrite.py`: the printed status line. -/
def statusMessage (success : Bool) (source prior run_type : String) : String :=
  if success then
    (if source = "gbreach" ∨ source = "gbnode" then "gbpriors" else source).toUpper
      ++ ": '" ++ prior ++ "' has been overwritten in the SoS (" ++ run_type ++ ")."
  else
    "FAILURE: "
      ++ (if source = "gbreach" ∨ source = "gbnode" then "gbpriors" else source).toUpper
      ++ ": '" ++ prior ++ "' has NOT been overwritten in the SoS (" ++ run_type ++ ")."

/-- Observable events of the merge loop: opening the SoS dataset of a
group's run type (line 101), printing the status line (lines 127/130) and
closing the dataset (line 132). -/
inductive SosEvent where
  | openStore (run_type : String)
  | statusLine (line : String)
  | closeStore (run_type : String)
deriving DecidableEq

/-- Whether an event is a printed status line. -/
def isStatusEvent : SosEvent → Bool
  | .statusLine _ => true
  | _ => false

/-- `Overwrite.overwrite` (overwrite.py lines 89-133): process every group
in order; each iteration opens the store of the group's run type, processes
the group, prints one status line and closes the store.  The per-run-type
store contents are threaded as the map `stores`; the event trace is
returned alongside. -/
def overwrite (stores : String → SosStore) :
    List PriorGroup → (String → SosStore) × List SosEvent
  | [] => (stores, [])
  | g :: gs =>
    let r := overwriteStep g (stores g.run_type)
    let stores2 := fun rt => if rt = g.run_type then r.sos else stores rt
    let rest := overwrite stores2 gs
    (rest.1,
      SosEvent.openStore g.run_type
        :: SosEvent.statusLine (statusMessage r.success g.source g.prior g.run_type)
        :: SosEvent.closeStore g.run_type :: rest.2)

/-! ## Data model of the exchange-file builder (store.py) -/

/-- `PriorStore.NODE_LIST` (store.py line 42). -/
def NODE_LIST : List String :=
  ["river_type", "logA0_hat", "logn_hat", "b_hat", "logWb_hat", "logDb_hat",
   "logr_hat", "logA0_sd", "logn_sd", "b_sd", "logWb_sd", "logDb_sd",
   "logr_sd", "sigma_man", "sigma_amhg"]

/-- `PriorStore.MONTHS_LIST` (store.py line 43). -/
def MONTHS_LIST : List String := ["monthly_q"]

/-- `PriorStore.DAYS_LIST` (store.py line 44). -/
def DAYS_LIST : List String := ["grdc_q", "usgs_q"]

/-- `PriorStore.PROB_LIST` (store.py line 45). -/
def PROB_LIST : List String := ["flow_duration_q"]

/-- `PriorStore.create_dimensions` (store.py lines 117-148), modelled as the
list of `(name, size)` dimensions created; `none` sizes are unlimited
dimensions.  Python truthiness makes a `0` or absent count create no
dimension. -/
def create_dimensions (source : String) (num_reaches num_nodes : Option Nat) :
    List (String × Option Nat) :=
  (match num_reaches with
   | some n => if n = 0 then [] else [("num_reaches", some n)]
   | none => []) ++
  (match num_nodes with
   | some n => if n = 0 then [] else [("num_nodes", some n)]
   | none => []) ++
  (if source = "wbm" ∨ source = "grades" ∨ source = "grdc" ∨ source = "usgs" then
    [("num_months", some 12), ("probability", some 20)]
  else []) ++
  (if source = "grdc" then [("num_days", (none : Option Nat))] else []) ++
  (if source = "usgs" then [("num_days", (none : Option Nat)), ("nchars", some 16)]
   else [])

/-- `PriorStore.create_variables` (store.py lines 150-217), modelled as the
list of `(name, dimension names)` variables created for the group of
`(source, prior)`. -/
def create_variables (source prior : String) : List (String × List String) :=
  if source = "gbnode" ∧ prior ∈ NODE_LIST then
    [("node_id", ["num_nodes"]), ("indexes", ["num_nodes"]),
     ("prior_values", ["num_nodes"])]
  else if prior ∈ PROB_LIST then
    [("reach_id", ["num_reaches"]), ("indexes", ["num_reaches"]),
     ("prior_values", ["num_reaches", "probability"])]
  else if prior ∈ MONTHS_LIST then
    [("reach_id", ["num_reaches"]), ("indexes", ["num_reaches"]),
     ("prior_values", ["num_reaches", "num_months"])]
  else if prior ∈ DAYS_LIST then
    [("reach_id", ["num_reaches"]), ("indexes", ["num_reaches"]),
     ("prior_values", ["num_reaches", "num_days"]),
     ("value_t", ["num_reaches", "num_days"])]
  else
    [("reach_id", ["num_reaches"]), ("indexes", ["num_reaches"]),
     ("prior_values", ["num_reaches"])]

/-! ## Group naming (store.py line 100, overwrite.py lines 92-93)

Python strings are modelled as character lists so that the split/join
round-trip can be analysed by structural induction. -/

/-- Store.py line 100: the group is named `f"{source}_{prior}"`. -/
def buildGroupName (source prior : List Char) : List Char :=
  source ++ '_' :: prior

/-- Python's `key.split('_')`. -/
def splitUnd : List Char → List (List Char)
  | [] => [[]]
  | c :: cs =>
    if c = '_' then [] :: splitUnd cs
    else
      match splitUnd cs with
      | [] => [[c]]
      | s :: ss => (c :: s) :: ss

/-- Python's `'_'.join(segments)`. -/
def joinUnd : List (List Char) → List Char
  | [] => []
  | [s] => s
  | s :: ss => s ++ '_' :: joinUnd ss

/-- Overwrite.py lines 92-93: `source = key.split('_')[0]` and
`prior = '_'.join(key.split('_')[1:])`. -/
def parseGroupName (key : List Char) : List Char × List Char :=
  ((splitUnd key).headD [], joinUnd (splitUnd key).tail)

/-! ## create_netcdf file-name computation (store.py lines 79-91) -/

/-- A Python runtime error surfaced by the model. -/
inductive PyError where
  | nameError (name : String)
deriving DecidableEq

/-- File-system effects of `create_netcdf` that the model records. -/
inductive FileEffect where
  | createFile (name : String)
deriving DecidableEq

/-- Constructor state of a `PriorStore` (store.py lines 47-65). -/
structure PriorStore where
  author : String
  email : String
  sos_file : String
deriving DecidableEq

/-- Store.py line 86: the file name interpolates the free name `author`
(a module-global lookup in Python, since `create_netcdf` has no local
`author`), not `self.author`.  The model takes the global binding as an
`Option`; evaluation of the f-string happens before `Dataset(file_name,
'w')`, so with no global binding the function raises `NameError` having
performed no file effect. -/
def create_netcdf (globalAuthor : Option String) (store : PriorStore) :
    List FileEffect × Option PyError :=
  match globalAuthor with
  | none => ([], some (PyError.nameError "author"))
  | some a =>
    ([FileEffect.createFile
        (((a.replace " " "_").toLower) ++ "_"
          ++ ((store.sos_file.splitOn "_").headD "") ++ ".nc")],
     none)

/-! ## Specification-side definitions

Each `spec*` definition below transcribes the wording of the corresponding
specification sentence; the theorems compare them with the definitions
translated from the source. -/

/-- Spec 4.1: the fixed five-case routing table, written as the spec states
it: `wbm|grades` to `model`, `grdc` to `model/grdc`, `gbreach` to
`gbpriors/reach`, `gbnode` to `gbpriors/node`, every other tag to
`model/usgs`. -/
def routeSpec (source : String) : String :=
  if source = "wbm" then "model"
  else if source = "grades" then "model"
  else if source = "grdc" then "model/grdc"
  else if source = "gbreach" then "gbpriors/reach"
  else if source = "gbnode" then "gbpriors/node"
  else "model/usgs"

/-- Spec 4.2: identifier resolution as the spec words it — node arrays when
no reach-level identifier is present, otherwise reach identifiers with the
destination table selected by source. -/
def specSelectIds (g : PriorGroup) (sos : SosStore) : List Int × List Int :=
  match g.idVar with
  | .node nids => (nids, sos.nodes_node_id)
  | .reach rids =>
    (rids,
      if g.source = "usgs" then sos.usgs_reach_id
      else if g.source = "grdc" then sos.grdc_reach_id
      else sos.reaches_reach_id)

/-- Spec 4.5 steps 4-5 / P2: the verification verdict as the spec words
it — read back at offsets recomputed from the record's identifier array
(via 4.2/4.3, never reusing the precomputed destination indexes) and
compare approximately with the payload that was written. -/
def specVerified (g : PriorGroup) (sos : SosStore) : Bool :=
  let written := (overwriteStep g sos).sos
  let ids := specSelectIds g sos
  let offsets := resolve_offsets ids.2 ids.1
  match g.payload with
  | .scalar values => allclose values (readAt written.priorVar1 offsets)
  | .timed values value_t =>
    allclose (values.headD [])
      (readPairs written.priorVar2 offsets
        (resolve_offsets sos.sos_t (value_t.headD [])))

/-- Spec 6: the umbrella label — `gbreach`/`gbnode` report as `gbpriors`. -/
def specStatusLabel (source : String) : String :=
  if source = "gbreach" ∨ source = "gbnode" then "gbpriors" else source

/-- Spec 6: the status line format,
`"<SOURCE>: '<prior>' has been overwritten in the SoS (<run_type>)."`
with a `FAILURE:` variant on verification failure. -/
def specStatusMessage (success : Bool) (source prior run_type : String) : String :=
  if success then
    (specStatusLabel source).toUpper ++ ": '" ++ prior
      ++ "' has been overwritten in the SoS (" ++ run_type ++ ")."
  else
    "FAILURE: " ++ (specStatusLabel source).toUpper ++ ": '" ++ prior
      ++ "' has NOT been overwritten in the SoS (" ++ run_type ++ ")."

/-! ## Helper lemmas -/

/-- The source-side and spec-side identifier selections agree. -/
theorem testIds_eq_spec (g : PriorGroup) (sos : SosStore) :
    testIds g sos = specSelectIds g sos := by
  cases h : g.idVar with
  | reach ids =>
    simp only [testIds, specSelectIds, retrieve_ids, h]
    split_ifs <;> rfl
  | node ids => simp [testIds, specSelectIds, h]

theorem isStatusEvent_openStore (rt : String) :
    isStatusEvent (SosEvent.openStore rt) = false := rfl

theorem isStatusEvent_statusLine (s : String) :
    isStatusEvent (SosEvent.statusLine s) = true := rfl

theorem isStatusEvent_closeStore (rt : String) :
    isStatusEvent (SosEvent.closeStore rt) = false := rfl

/-- The printed status line follows the specified format. -/
theorem statusMessage_eq_spec (success : Bool) (source prior run_type : String) :
    statusMessage success source prior run_type
      = specStatusMessage success source prior run_type := by
  cases success <;> simp [statusMessage, specStatusMessage, specStatusLabel]

/-- One status line is printed per processed group. -/
theorem overwrite_status_count (stores : String → SosStore) (groups : List PriorGroup) :
    ((overwrite stores groups).2.filter (fun e => isStatusEvent e)).length
      = groups.length := by
  induction groups generalizing stores with
  | nil => simp [overwrite]
  | cons g gs ih =>
    simp [overwrite, isStatusEvent_openStore, isStatusEvent_statusLine,
      isStatusEvent_closeStore, ih]

/-- The open/close sub-trace of the loop: each group's store is closed
before the next group's store is opened. -/
theorem overwrite_open_close (stores : String → SosStore) (groups : List PriorGroup) :
    (overwrite stores groups).2.filter (fun e => !isStatusEvent e)
      = groups.flatMap
          (fun g => [SosEvent.openStore g.run_type, SosEvent.closeStore g.run_type]) := by
  induction groups generalizing stores with
  | nil => simp [overwrite]
  | cons g gs ih =>
    simp [overwrite, isStatusEvent_openStore, isStatusEvent_statusLine,
      isStatusEvent_closeStore, ih]

/-- Every status line of the trace carries the specified format. -/
theorem overwrite_status_shape (stores : String → SosStore) (groups : List PriorGroup) :
    ∀ e ∈ (overwrite stores groups).2, isStatusEvent e = true →
      ∃ success source prior run_type, e
        = SosEvent.statusLine (specStatusMessage success source prior run_type) := by
  induction groups generalizing stores with
  | nil => simp [overwrite]
  | cons g gs ih =>
    intro e he hs
    simp only [overwrite, List.mem_cons] at he
    rcases he with h | h | h | h
    · rw [h] at hs; simp [isStatusEvent_openStore] at hs
    · exact ⟨(overwriteStep g (stores g.run_type)).success, g.source, g.prior,
        g.run_type, by rw [h, statusMessage_eq_spec]⟩
    · rw [h] at hs; simp [isStatusEvent_closeStore] at hs
    · exact ih _ e h hs

/-! ## Claim theorems -/

/-- C4: routing is total and exactly the fixed five-case table: for every
string source, `determine_group` returns `"model"` for `"wbm"`/`"grades"`,
`"model/grdc"` for `"grdc"`, `"gbpriors/reach"` for `"gbreach"`,
`"gbpriors/node"` for `"gbnode"`, `"model/usgs"` for every other string,
and its result is always one of these five paths. -/
theorem determine_group_total_table (source : String) :
    determine_group source = routeSpec source ∧
    determine_group source
      ∈ ["model", "model/grdc", "gbpriors/reach", "gbpriors/node", "model/usgs"] := by
  constructor
  · unfold determine_group routeSpec
    split_ifs <;> simp_all
  · unfold determine_group
    split_ifs <;> simp

/-- C5: identifier-resolution source selection: when the record carries no
reach-level identifier variable both identifier sequences come from the
node-identifier arrays; otherwise reach identifiers are used with the
destination array selected by source (`usgs`, `grdc`, or the global reach
table). -/
theorem testIds_selection_table (g : PriorGroup) (sos : SosStore) :
    (∀ nids, g.idVar = IdVariable.node nids →
      testIds g sos = (nids, sos.nodes_node_id)) ∧
    (∀ rids, g.idVar = IdVariable.reach rids →
      testIds g sos =
        (rids,
          if g.source = "usgs" then sos.usgs_reach_id
          else if g.source = "grdc" then sos.grdc_reach_id
          else sos.reaches_reach_id)) := by
  constructor
  · intro nids h
    simp [testIds, h]
  · intro rids h
    rw [testIds_eq_spec]
    simp [specSelectIds, h]

/-- C10: `create_netcdf` interpolates the free (module-global) name
`author` into the output file name, so when no global `author` binding
exists the call raises `NameError` before any file is created, whatever
author value the constructor stored. -/
theorem create_netcdf_global_author_nameError (store : PriorStore) :
    create_netcdf none store = ([], some (PyError.nameError "author")) := rfl

/-- C6: verification failure is non-fatal: for every sequence of groups the
loop emits one status per group (so every subsequent group is still
processed after a failure), and the open/close sub-trace shows each group's
store closed before the next group's store is opened. -/
theorem overwrite_failure_nonfatal (stores : String → SosStore)
    (groups : List PriorGroup) :
    ((overwrite stores groups).2.filter (fun e => isStatusEvent e)).length
        = groups.length ∧
    (overwrite stores groups).2.filter (fun e => !isStatusEvent e)
      = groups.flatMap
          (fun g => [SosEvent.openStore g.run_type, SosEvent.closeStore g.run_type]) :=
  ⟨overwrite_status_count stores groups, overwrite_open_close stores groups⟩

/-- C7: status-line format: exactly one status line per processed group;
every status event of the trace carries the specified format, which
uppercases the source tag and reports `gbreach`/`gbnode` under the
umbrella label `gbpriors`. -/
theorem overwrite_status_format (stores : String → SosStore)
    (groups : List PriorGroup) :
    ((overwrite stores groups).2.filter (fun e => isStatusEvent e)).length
        = groups.length ∧
    (∀ e ∈ (overwrite stores groups).2, isStatusEvent e = true →
      ∃ success source prior run_type, e
        = SosEvent.statusLine (specStatusMessage success source prior run_type)) ∧
    (∀ success source prior run_type,
      statusMessage success source prior run_type
        = specStatusMessage success source prior run_type) ∧
    specStatusLabel "gbreach" = "gbpriors" ∧
    specStatusLabel "gbnode" = "gbpriors" ∧
    (∀ source, source ≠ "gbreach" → source ≠ "gbnode" →
      specStatusLabel source = source) := by
  refine ⟨overwrite_status_count stores groups, overwrite_status_shape stores groups,
    statusMessage_eq_spec, by simp [specStatusLabel], by simp [specStatusLabel], ?_⟩
  intro source h1 h2
  simp [specStatusLabel, h1, h2]

/-- C3: verification round-trip and independence: for every processed
record, success is reported if and only if the values read back at offsets
recomputed from the record's identifier array (via `retrieve_ids` /
`node_id` lookup followed by the argsort-searchsorted permutation, not
reusing the precomputed `indexes`) are `allclose` to the payload that was
written. -/
theorem overwriteStep_success_iff_independent_check (g : PriorGroup)
    (sos : SosStore) :
    (overwriteStep g sos).success = specVerified g sos := by
  cases hp : g.payload with
  | scalar values =>
    simp only [overwriteStep, specVerified, test_indexes, testIds_eq_spec, hp]
  | timed values value_t =>
    simp only [overwriteStep, specVerified, test_indexes, testIds_eq_spec, hp]

/-- Disjointness of string lists from a decidable scan. -/
theorem disjoint_of_all {l₁ l₂ : List String}
    (h : l₁.all (fun a => decide (a ∉ l₂)) = true) : l₁.Disjoint l₂ := by
  intro a ha hb
  exact of_decide_eq_true (List.all_eq_true.mp h a ha) hb

/-- C8: category completeness of the exchange-file schema writer: the four
static prior-name lists are pairwise disjoint (every listed prior name
falls in exactly one shape category keyed by prior name); a prior name
absent from all four lists is written with the reach-scalar shape; the
monthly dimension is fixed at 12 and the probability dimension at 20. -/
theorem prior_category_completeness :
    NODE_LIST.Disjoint MONTHS_LIST ∧ NODE_LIST.Disjoint DAYS_LIST ∧
    NODE_LIST.Disjoint PROB_LIST ∧ MONTHS_LIST.Disjoint DAYS_LIST ∧
    MONTHS_LIST.Disjoint PROB_LIST ∧ DAYS_LIST.Disjoint PROB_LIST ∧
    (∀ source prior : String,
      prior ∉ NODE_LIST → prior ∉ MONTHS_LIST → prior ∉ DAYS_LIST →
      prior ∉ PROB_LIST →
      create_variables source prior
        = [("reach_id", ["num_reaches"]), ("indexes", ["num_reaches"]),
           ("prior_values", ["num_reaches"])]) ∧
    (∀ (source : String) (nr nn d : Option Nat),
      ("num_months", d) ∈ create_dimensions source nr nn → d = some 12) ∧
    (∀ (source : String) (nr nn d : Option Nat),
      ("probability", d) ∈ create_dimensions source nr nn → d = some 20) := by
  refine ⟨disjoint_of_all (by decide), disjoint_of_all (by decide),
    disjoint_of_all (by decide), disjoint_of_all (by decide),
    disjoint_of_all (by decide), disjoint_of_all (by decide), ?_, ?_, ?_⟩
  · intro source prior h1 h2 h3 h4
    simp [create_variables, h1, h2, h3, h4]
  · intro source nr nn d h
    unfold create_dimensions at h
    cases nr <;> cases nn <;>
      simp only [List.mem_append, List.mem_cons, List.not_mem_nil, or_false] at h <;>
      split_ifs at h <;> simp_all
  · intro source nr nn d h
    unfold create_dimensions at h
    cases nr <;> cases nn <;>
      simp only [List.mem_append, List.mem_cons, List.not_mem_nil, or_false] at h <;>
      split_ifs at h <;> simp_all

/-- Witness for C8 at concrete inputs. -/
theorem prior_category_completeness_witness :
    ("xyz" ∉ NODE_LIST ∧ "xyz" ∉ MONTHS_LIST ∧ "xyz" ∉ DAYS_LIST ∧
      "xyz" ∉ PROB_LIST) ∧
    create_variables "wbm" "xyz"
      = [("reach_id", ["num_reaches"]), ("indexes", ["num_reaches"]),
         ("prior_values", ["num_reaches"])] ∧
    (("num_months", (some 12 : Option Nat)) ∈ create_dimensions "wbm" (some 3) none ∧
      (some 12 : Option Nat) = some 12) ∧
    (("probability", (some 20 : Option Nat)) ∈ create_dimensions "wbm" (some 3) none ∧
      (some 20 : Option Nat) = some 20) :=
  ⟨⟨by decide, by decide, by decide, by decide⟩,
   prior_category_completeness.2.2.2.2.2.2.1 "wbm" "xyz"
     (by decide) (by decide) (by decide) (by decide),
   ⟨by decide,
    prior_category_completeness.2.2.2.2.2.2.2.1 "wbm" (some 3) none (some 12)
      (by decide)⟩,
   ⟨by decide,
    prior_category_completeness.2.2.2.2.2.2.2.2 "wbm" (some 3) none (some 20)
      (by decide)⟩⟩

/-! ## Group-name split/join lemmas (C9) -/

/-- `split` never yields an empty segment list. -/
theorem splitUnd_ne_nil (l : List Char) : splitUnd l ≠ [] := by
  induction l with
  | nil => simp [splitUnd]
  | cons c cs ih =>
    simp only [splitUnd]
    split_ifs
    · simp
    · cases h : splitUnd cs <;> simp

/-- Splitting a string whose head part is separator-free. -/
theorem splitUnd_append (s p : List Char) (hs : '_' ∉ s) :
    splitUnd (s ++ '_' :: p) = s :: splitUnd p := by
  induction s with
  | nil => simp [splitUnd]
  | cons c cs ih =>
    have hc : c ≠ '_' := fun h => hs (h ▸ List.mem_cons_self c cs)
    have hcs : '_' ∉ cs := fun h => hs (List.mem_cons_of_mem c h)
    simp only [List.cons_append, splitUnd, if_neg hc, List.append_eq]
    rw [ih hcs]

/-- Join inverts split. -/
theorem joinUnd_splitUnd (l : List Char) : joinUnd (splitUnd l) = l := by
  induction l with
  | nil => rfl
  | cons c cs ih =>
    obtain ⟨s, ss, hss⟩ : ∃ s ss, splitUnd cs = s :: ss := by
      cases h : splitUnd cs with
      | nil => exact absurd h (splitUnd_ne_nil cs)
      | cons s ss => exact ⟨s, ss, rfl⟩
    rw [hss] at ih
    simp only [splitUnd]
    split_ifs with hc
    · subst hc
      rw [hss]
      simpa [joinUnd] using ih
    · rw [hss]
      cases ss with
      | nil => simpa [joinUnd] using congrArg (c :: ·) (by simpa [joinUnd] using ih)
      | cons t ts => simpa [joinUnd] using congrArg (c :: ·) (by simpa [joinUnd] using ih)

/-- The first segment of a split contains no separator. -/
theorem firstSegment_no_sep (l : List Char) : '_' ∉ (splitUnd l).headD [] := by
  induction l with
  | nil => simp [splitUnd]
  | cons c cs ih =>
    simp only [splitUnd]
    split_ifs with hc
    · simp
    · cases h : splitUnd cs with
      | nil =>
        intro hmem
        simp only [List.headD_cons, List.mem_singleton] at hmem
        exact hc hmem.symm
      | cons s ss =>
        rw [h] at ih
        intro hmem
        rcases List.mem_cons.mp hmem with h1 | h1
        · exact hc h1.symm
        · exact ih h1

/-- C9: group-name round-trip: for a source tag with no underscore the
merge engine's parse of the builder's `"{source}_{prior}"` group name
recovers exactly the original pair; for a source tag containing an
underscore the parse does not recover the original pair. -/
theorem group_name_round_trip :
    (∀ source prior : List Char, '_' ∉ source →
      parseGroupName (buildGroupName source prior) = (source, prior)) ∧
    (∀ source prior : List Char, '_' ∈ source →
      parseGroupName (buildGroupName source prior) ≠ (source, prior)) := by
  constructor
  · intro source prior hs
    simp [parseGroupName, buildGroupName, splitUnd_append source prior hs,
      joinUnd_splitUnd]
  · intro source prior hs hparse
    have h1 : (splitUnd (buildGroupName source prior)).headD [] = source := by
      have := congrArg Prod.fst hparse
      simpa [parseGroupName] using this
    exact firstSegment_no_sep (buildGroupName source prior) (by rw [h1]; exact hs)

/-- Witness for C9 at concrete inputs: the underscore-free tag `wbm` with a
prior containing an underscore round-trips; the tag `g_b` does not. -/
theorem group_name_round_trip_witness :
    ('_' ∉ ['w', 'b', 'm'] ∧
      parseGroupName (buildGroupName ['w', 'b', 'm'] ['q', '_', 'b'])
        = (['w', 'b', 'm'], ['q', '_', 'b'])) ∧
    ('_' ∈ ['g', '_', 'b'] ∧
      parseGroupName (buildGroupName ['g', '_', 'b'] ['q'])
        ≠ (['g', '_', 'b'], ['q'])) :=
  ⟨⟨by decide, group_name_round_trip.1 _ _ (by decide)⟩,
   ⟨by decide, group_name_round_trip.2 _ _ (by decide)⟩⟩

/-! ## Offset-resolution correctness (C1) -/

theorem insertIdx_perm (le : Nat → Nat → Bool) (i : Nat) (s : List Nat) :
    List.Perm (insertIdx le i s) (i :: s) := by
  induction s with
  | nil => rfl
  | cons j js ih =>
    simp only [insertIdx]
    split_ifs
    · rfl
    · exact (ih.cons j).trans (List.Perm.swap i j js)

theorem isortIdx_perm (le : Nat → Nat → Bool) (s : List Nat) : List.Perm (isortIdx le s) s := by
  induction s with
  | nil => rfl
  | cons i is ih => exact (insertIdx_perm le i (isortIdx le is)).trans (ih.cons i)

theorem mem_insertIdx {le : Nat → Nat → Bool} {x i : Nat} {s : List Nat} :
    x ∈ insertIdx le i s ↔ x = i ∨ x ∈ s := by
  rw [(insertIdx_perm le i s).mem_iff, List.mem_cons]

theorem pairwise_insertIdx {le : Nat → Nat → Bool}
    (htot : ∀ a b, le a b = true ∨ le b a = true)
    (htrans : ∀ a b c, le a b = true → le b c = true → le a c = true)
    (i : Nat) {s : List Nat} (hs : s.Pairwise (fun a b => le a b = true)) :
    (insertIdx le i s).Pairwise (fun a b => le a b = true) := by
  induction s with
  | nil => simp [insertIdx]
  | cons j js ih =>
    rcases List.pairwise_cons.mp hs with ⟨hj, hjs⟩
    simp only [insertIdx]
    split_ifs with hij
    · refine List.pairwise_cons.mpr ⟨?_, hs⟩
      intro x hx
      rcases List.mem_cons.mp hx with rfl | h
      · exact hij
      · exact htrans i j x hij (hj x h)
    · have hji : le j i = true := (htot i j).resolve_left hij
      refine List.pairwise_cons.mpr ⟨?_, ih hjs⟩
      intro x hx
      rcases mem_insertIdx.mp hx with rfl | h
      · exact hji
      · exact hj x h

theorem pairwise_isortIdx {le : Nat → Nat → Bool}
    (htot : ∀ a b, le a b = true ∨ le b a = true)
    (htrans : ∀ a b c, le a b = true → le b c = true → le a c = true)
    (s : List Nat) :
    (isortIdx le s).Pairwise (fun a b => le a b = true) := by
  induction s with
  | nil => simp [isortIdx]
  | cons i is ih => exact pairwise_insertIdx htot htrans i ih

theorem idxLe_total (l : List Int) (i j : Nat) :
    idxLe l i j = true ∨ idxLe l j i = true := by
  simp only [idxLe, Bool.or_eq_true, Bool.and_eq_true, decide_eq_true_eq]
  omega

theorem idxLe_trans (l : List Int) (a b c : Nat)
    (h1 : idxLe l a b = true) (h2 : idxLe l b c = true) : idxLe l a c = true := by
  simp only [idxLe, Bool.or_eq_true, Bool.and_eq_true, decide_eq_true_eq] at h1 h2 ⊢
  omega

theorem argsort_perm (l : List Int) : List.Perm (argsort l) (List.range l.length) :=
  isortIdx_perm _ _

theorem argsort_length (l : List Int) : (argsort l).length = l.length := by
  rw [(argsort_perm l).length_eq, List.length_range]

theorem map_getD_range (l : List Int) :
    (List.range l.length).map (fun i => l.getD i 0) = l := by
  apply List.ext_getElem
  · simp
  · intro n h1 h2
    simp only [List.getElem_map, List.getElem_range]
    exact List.getD_eq_getElem l 0 h2

theorem applyPerm_argsort_perm (l : List Int) : List.Perm (applyPerm l (argsort l)) l := by
  have h := (argsort_perm l).map (fun i => l.getD i 0)
  rw [map_getD_range] at h
  exact h

theorem sorted_applyPerm_argsort (l : List Int) :
    (applyPerm l (argsort l)).Pairwise (· ≤ ·) := by
  have h := pairwise_isortIdx (idxLe_total l) (idxLe_trans l) (List.range l.length)
  have h2 : (argsort l).Pairwise (fun a b => l.getD a 0 ≤ l.getD b 0) := by
    refine h.imp ?_
    intro a b hab
    simp only [idxLe, Bool.or_eq_true, Bool.and_eq_true, decide_eq_true_eq] at hab
    rcases hab with h' | ⟨h', _⟩
    · exact le_of_lt h'
    · exact le_of_eq h'
  exact List.pairwise_map.mpr h2

theorem searchsorted_getD {l : List Int} {v : Int} (hs : l.Pairwise (· ≤ ·))
    (hv : v ∈ l) :
    searchsorted l v < l.length ∧ l.getD (searchsorted l v) 0 = v := by
  induction l with
  | nil => cases hv
  | cons x xs ih =>
    rcases List.pairwise_cons.mp hs with ⟨hx, hxs⟩
    simp only [searchsorted]
    split_ifs with hlt
    · have hv' : v ∈ xs := by
        rcases List.mem_cons.mp hv with rfl | h
        · exact absurd hlt (lt_irrefl v)
        · exact h
      obtain ⟨h1, h2⟩ := ih hxs hv'
      exact ⟨Nat.succ_lt_succ h1, by simpa using h2⟩
    · have hvx : v = x := by
        rcases List.mem_cons.mp hv with rfl | h
        · rfl
        · exact le_antisymm (le_of_not_lt hlt) (hx v h)
      exact ⟨Nat.succ_pos _, by simp [hvx]⟩

theorem store_getD_resolve (store_ids : List Int) {v : Int} (hv : v ∈ store_ids) :
    store_ids.getD
      ((argsort store_ids).getD
        (searchsorted (applyPerm store_ids (argsort store_ids)) v) 0) 0 = v := by
  have hvs : v ∈ applyPerm store_ids (argsort store_ids) :=
    (applyPerm_argsort_perm store_ids).mem_iff.mpr hv
  obtain ⟨hk, hkv⟩ := searchsorted_getD (sorted_applyPerm_argsort store_ids) hvs
  have hk' : searchsorted (applyPerm store_ids (argsort store_ids)) v
      < (argsort store_ids).length := by
    simpa [applyPerm] using hk
  have hstep : store_ids.getD
      ((argsort store_ids).getD
        (searchsorted (applyPerm store_ids (argsort store_ids)) v) 0) 0
      = (applyPerm store_ids (argsort store_ids)).getD
          (searchsorted (applyPerm store_ids (argsort store_ids)) v) 0 := by
    rw [List.getD_eq_getElem (argsort store_ids) 0 hk',
      List.getD_eq_getElem _ 0 hk]
    simp [applyPerm, List.getElem_map]
  rw [hstep, hkv]

/-- C1: offset resolution is correct: for integer sequences `source_ids`
(length n) and `store_ids` (length m, n ≤ m) with `store_ids` pairwise
distinct and every element of `source_ids` occurring in `store_ids`, the
computed offsets `sorter[searchsorted(store_ids, source_ids, sorter)]`
satisfy `store_ids[offsets[i]] = source_ids[i]` for every i; in
particular `resolve_offsets [30, 10, 20] [20, 30] = [2, 0]`. -/
theorem resolve_offsets_correct (store_ids source_ids : List Int)
    (hnodup : store_ids.Nodup)
    (hsub : ∀ v ∈ source_ids, v ∈ store_ids)
    (hlen : source_ids.length ≤ store_ids.length) :
    (∀ i, i < source_ids.length →
      store_ids.getD ((resolve_offsets store_ids source_ids).getD i 0) 0
        = source_ids.getD i 0) ∧
    resolve_offsets [30, 10, 20] [20, 30] = [2, 0] := by
  refine ⟨?_, by decide⟩
  intro i hi
  have h1 : (resolve_offsets store_ids source_ids).getD i 0
      = (argsort store_ids).getD
          (searchsorted (applyPerm store_ids (argsort store_ids))
            (source_ids.getD i 0)) 0 := by
    simp only [resolve_offsets]
    rw [List.getD_eq_getElem _ 0 (by simpa using hi), List.getElem_map,
      List.getD_eq_getElem source_ids 0 hi]
  rw [h1]
  exact store_getD_resolve store_ids
    (hsub _ (by rw [List.getD_eq_getElem source_ids 0 hi]; exact List.getElem_mem hi))

/-- Witness for C1 at the spec's scenario `store_ids = [30, 10, 20]`,
`source_ids = [20, 30]`. -/
theorem resolve_offsets_correct_witness :
    ([30, 10, 20] : List Int).Nodup ∧
    (∀ v ∈ ([20, 30] : List Int), v ∈ ([30, 10, 20] : List Int)) ∧
    ([20, 30] : List Int).length ≤ ([30, 10, 20] : List Int).length ∧
    0 < ([20, 30] : List Int).length ∧
    ([30, 10, 20] : List Int).getD
        ((resolve_offsets [30, 10, 20] [20, 30]).getD 0 0) 0
      = ([20, 30] : List Int).getD 0 0 :=
  ⟨by decide, by decide, by decide, by decide,
    (resolve_offsets_correct [30, 10, 20] [20, 30] (by decide) (by decide)
      (by decide)).1 0 (by decide)⟩

/-! ## Write-primitive lemmas (C2) -/

theorem setPairs_nil (row : List Val) : setPairs row [] = row := rfl

theorem setPairs_cons (row : List Val) (p : Nat × Val) (rest : List (Nat × Val)) :
    setPairs row (p :: rest) = setPairs (row.set p.1 p.2) rest := rfl

theorem setPairs_length (ps : List (Nat × Val)) (row : List Val) :
    (setPairs row ps).length = row.length := by
  induction ps generalizing row with
  | nil => rfl
  | cons p rest ih => rw [setPairs_cons, ih, List.length_set]

/-- Positions outside the written column set are unchanged. -/
theorem setPairs_getD_not_mem {c : Nat} {ps : List (Nat × Val)}
    (h : c ∉ ps.map Prod.fst) (row : List Val) :
    (setPairs row ps).getD c 0 = row.getD c 0 := by
  induction ps generalizing row with
  | nil => rfl
  | cons p rest ih =>
    have hc : p.1 ≠ c := fun e => h (by simp [← e])
    have hrest : c ∉ rest.map Prod.fst := fun hm => h (by simp [hm])
    rw [setPairs_cons, ih hrest, List.getD_eq_getElem?_getD,
      List.getD_eq_getElem?_getD, List.getElem?_set_ne hc]

/-- With pairwise-distinct positions, pair `j` ends at its own value. -/
theorem setPairs_getD_nodup {ps : List (Nat × Val)}
    (hnodup : (ps.map Prod.fst).Nodup) {j : Nat} (hj : j < ps.length)
    (row : List Val) (hb : (ps.getD j (0, 0)).1 < row.length) :
    (setPairs row ps).getD (ps.getD j (0, 0)).1 0 = (ps.getD j (0, 0)).2 := by
  induction ps generalizing row j with
  | nil => exact absurd hj (by simp)
  | cons p rest ih =>
    rw [setPairs_cons]
    cases j with
    | zero =>
      have hnodup' := hnodup
      rw [List.map_cons, List.nodup_cons] at hnodup'
      have hpf : p.1 ∉ rest.map Prod.fst := hnodup'.1
      simp only [List.getD_cons_zero] at hb ⊢
      rw [setPairs_getD_not_mem hpf]
      rw [List.getD_eq_getElem _ 0 (by simpa [List.length_set] using hb)]
      exact List.getElem_set_self _
    | succ j' =>
      have hj' : j' < rest.length := by simpa using hj
      have hnodup' := hnodup
      rw [List.map_cons, List.nodup_cons] at hnodup'
      have hnd : (rest.map Prod.fst).Nodup := hnodup'.2
      simp only [List.getD_cons_succ] at hb ⊢
      exact ih hnd hj' (row.set p.1 p.2) (by simpa [List.length_set] using hb)

theorem mem_fst_zip {c : Nat} {cols : List Nat} {vals : List Val}
    (h : c ∈ (cols.zip vals).map Prod.fst) : c ∈ cols := by
  obtain ⟨p, hp, rfl⟩ := List.mem_map.mp h
  exact (List.of_mem_zip hp).1

theorem writeVec_length (row : List Val) (cols : List Nat) (vals : List Val) :
    (writeVec row cols vals).length = row.length :=
  setPairs_length _ _

theorem writeVec_getD_not_mem {c : Nat} {cols : List Nat} (vals : List Val)
    (h : c ∉ cols) (row : List Val) :
    (writeVec row cols vals).getD c 0 = row.getD c 0 :=
  setPairs_getD_not_mem (fun hm => h (mem_fst_zip hm)) row

/-- The one-axis fancy assignment puts `vals[j]` at position `cols[j]`. -/
theorem writeVec_getD {cols : List Nat} (vals : List Val) (row : List Val)
    (hnodup : cols.Nodup) (hlen : cols.length ≤ vals.length)
    {j : Nat} (hj : j < cols.length) (hb : cols.getD j 0 < row.length) :
    (writeVec row cols vals).getD (cols.getD j 0) 0 = vals.getD j 0 := by
  have hjz : j < (cols.zip vals).length := by
    rw [List.length_zip]; omega
  have hfst : ((cols.zip vals).map Prod.fst).Nodup := by
    rw [List.map_fst_zip cols vals hlen]; exact hnodup
  have hzj : (cols.zip vals).getD j (0, 0) = (cols.getD j 0, vals.getD j 0) := by
    rw [List.getD_eq_getElem _ _ hjz, List.getElem_zip,
      List.getD_eq_getElem _ _ hj, List.getD_eq_getElem _ _ (lt_of_lt_of_le hj hlen)]
  have := setPairs_getD_nodup hfst hjz row (by rw [hzj]; exact hb)
  rw [hzj] at this
  exact this

theorem writeGrid_cons (grid : List (List Val)) (r : Nat) (rest : List Nat)
    (cols : List Nat) (vals : List Val) :
    writeGrid grid (r :: rest) cols vals
      = writeGrid (grid.set r (writeVec (grid.getD r []) cols vals)) rest cols vals :=
  rfl

theorem writeGrid_getD_not_mem {r : Nat} {rows : List Nat} (h : r ∉ rows)
    (grid : List (List Val)) (cols : List Nat) (vals : List Val) :
    (writeGrid grid rows cols vals).getD r [] = grid.getD r [] := by
  induction rows generalizing grid with
  | nil => rfl
  | cons r0 rest ih =>
    have h0 : r0 ≠ r := fun e => h (by simp [e])
    have hrest : r ∉ rest := fun hm => h (by simp [hm])
    rw [writeGrid_cons, ih hrest, List.getD_eq_getElem?_getD,
      List.getD_eq_getElem?_getD, List.getElem?_set_ne h0]
    exact (List.getD_eq_getElem?_getD grid r []).symm

/-- With pairwise-distinct row indexes, row `rows[i]` of the orthogonal
assignment is the written row. -/
theorem writeGrid_getD {rows : List Nat} (hnodup : rows.Nodup)
    {i : Nat} (hi : i < rows.length) (grid : List (List Val))
    (cols : List Nat) (vals : List Val) (hb : rows.getD i 0 < grid.length) :
    (writeGrid grid rows cols vals).getD (rows.getD i 0) []
      = writeVec (grid.getD (rows.getD i 0) []) cols vals := by
  induction rows generalizing grid i with
  | nil => exact absurd hi (by simp)
  | cons r0 rest ih =>
    rw [writeGrid_cons]
    cases i with
    | zero =>
      have h0 : r0 ∉ rest := (List.nodup_cons.mp hnodup).1
      simp only [List.getD_cons_zero] at hb ⊢
      rw [writeGrid_getD_not_mem h0]
      rw [List.getD_eq_getElem _ _ (by simpa [List.length_set] using hb)]
      exact List.getElem_set_self _
    | succ i' =>
      have hi' : i' < rest.length := by simpa using hi
      have hnd : rest.Nodup := (List.nodup_cons.mp hnodup).2
      have h0 : r0 ∉ rest := (List.nodup_cons.mp hnodup).1
      simp only [List.getD_cons_succ] at hb ⊢
      have hmem : rest.getD i' 0 ∈ rest := by
        rw [List.getD_eq_getElem _ _ hi']
        exact List.getElem_mem hi'
      have hne : r0 ≠ rest.getD i' 0 := fun e => h0 (e ▸ hmem)
      rw [ih hnd hi' _ (by simpa [List.length_set] using hb)]
      rw [List.getD_eq_getElem?_getD (grid.set r0 (writeVec (grid.getD r0 []) cols vals)),
        List.getElem?_set_ne hne, ← List.getD_eq_getElem?_getD]

/-! ## The two-axis write (C2) -/

/-- A concrete two-row time-carrying exchange group used to evaluate the
time-axis write at explicit inputs: payload rows `[1, 2]` and `[3, 4]`,
time labels `[2001, 2002]`, destination rows `0` and `1`. -/
def exampleTimedGroup : PriorGroup :=
  { source := "grdc", prior := "grdc_q", run_type := "constrained",
    idVar := IdVariable.reach [10, 20],
    indexes := [0, 1],
    payload := PayloadData.timed [[1, 2], [3, 4]] [[2001, 2002]] }

/-- A concrete SoS store with a 2 × 2 destination variable and stored time
row `[2001, 2002]`. -/
def exampleStore : SosStore :=
  { nodes_node_id := [], usgs_reach_id := [], grdc_reach_id := [10, 20],
    reaches_reach_id := [], priorVar1 := [],
    priorVar2 := [[0, 0], [0, 0]], sos_t := [2001, 2002] }

/-- C2 counterexample: at the concrete record `exampleTimedGroup` the claim
fails: after the merge, the cell addressed by
`(destination_index[1], time_offsets[0])` reads back `1` — element `(0,0)`
of the payload, because line 118 writes `data[0]`, the first payload row,
broadcast over all selected rows — and not `payload[1][0] = 3`. -/
theorem overwrite_timed_payload_row_counterexample :
    ((overwriteStep exampleTimedGroup exampleStore).sos.priorVar2.getD
        (exampleTimedGroup.indexes.getD 1 0) []).getD
      ((resolve_offsets exampleStore.sos_t
          ([[2001, 2002]].headD [])).getD 0 0) 0 = 1 ∧
    ((([[(1 : Val), 2], [3, 4]]).getD 1 []).getD 0 0 = 3) ∧ (1 : Val) ≠ 3 := by
  decide

/-- C2 (amended): the two-axis write is a first-row broadcast: for every
record carrying a time vector, the merge writes payload element `(0, j)` —
the first payload row — into destination cell
`(destination_index[i], time_offsets[j])` for every row selector `i` and
column `j`, so reading back cell `(row_offset[i], col_offset[j])`
reproduces `payload[0][j]` (hence it reproduces `payload[i][j]` only where
row `i` agrees with row `0`, e.g. for single-row payloads). -/
theorem overwrite_timed_broadcast_cell (g : PriorGroup) (sos : SosStore)
    (values : List (List Val)) (value_t : List (List Int))
    (hp : g.payload = PayloadData.timed values value_t)
    (hrows : g.indexes.Nodup)
    (hcols : (resolve_offsets sos.sos_t (value_t.headD [])).Nodup)
    (hvals : (resolve_offsets sos.sos_t (value_t.headD [])).length
        ≤ (values.headD []).length)
    (i j : Nat) (hi : i < g.indexes.length)
    (hj : j < (resolve_offsets sos.sos_t (value_t.headD [])).length)
    (hbr : g.indexes.getD i 0 < sos.priorVar2.length)
    (hbc : (resolve_offsets sos.sos_t (value_t.headD [])).getD j 0
        < (sos.priorVar2.getD (g.indexes.getD i 0) []).length) :
    (((overwriteStep g sos).sos.priorVar2).getD (g.indexes.getD i 0) []).getD
        ((resolve_offsets sos.sos_t (value_t.headD [])).getD j 0) 0
      = (values.headD []).getD j 0 := by
  have hstep : (overwriteStep g sos).sos.priorVar2
      = writeGrid sos.priorVar2 g.indexes
          (resolve_offsets sos.sos_t (value_t.headD [])) (values.headD []) := by
    simp [overwriteStep, hp]
  rw [hstep, writeGrid_getD hrows hi sos.priorVar2 _ _ hbr,
    writeVec_getD (values.headD []) _ hcols hvals hj hbc]

/-- Witness for the amended C2 at `exampleTimedGroup`: cell
`(destination_index[1], time_offsets[0])` holds `payload[0][0] = 1`. -/
theorem overwrite_timed_broadcast_cell_witness :
    (exampleTimedGroup.payload
        = PayloadData.timed [[1, 2], [3, 4]] [[2001, 2002]] ∧
      exampleTimedGroup.indexes.Nodup ∧
      (resolve_offsets exampleStore.sos_t ([[2001, 2002]].headD [])).Nodup ∧
      (resolve_offsets exampleStore.sos_t ([[2001, 2002]].headD [])).length
          ≤ (([[(1 : Val), 2], [3, 4]]).headD []).length ∧
      1 < exampleTimedGroup.indexes.length ∧
      0 < (resolve_offsets exampleStore.sos_t ([[2001, 2002]].headD [])).length ∧
      exampleTimedGroup.indexes.getD 1 0 < exampleStore.priorVar2.length ∧
      (resolve_offsets exampleStore.sos_t ([[2001, 2002]].headD [])).getD 0 0
          < (exampleStore.priorVar2.getD
              (exampleTimedGroup.indexes.getD 1 0) []).length) ∧
    ((overwriteStep exampleTimedGroup exampleStore).sos.priorVar2.getD
        (exampleTimedGroup.indexes.getD 1 0) []).getD
      ((resolve_offsets exampleStore.sos_t ([[2001, 2002]].headD [])).getD 0 0) 0
      = (([[(1 : Val), 2], [3, 4]]).headD []).getD 0 0 :=
  ⟨⟨by decide, by decide, by decide, by decide, by decide, by decide, by decide,
    by decide⟩,
   overwrite_timed_broadcast_cell exampleTimedGroup exampleStore
     [[1, 2], [3, 4]] [[2001, 2002]] (by decide) (by decide) (by decide)
     (by decide) 1 0 (by decide) (by decide) (by decide) (by decide)⟩

/-- A concrete node-identifier group. -/
def exampleNodeGroup : PriorGroup :=
  { source := "gbnode", prior := "logn_hat", run_type := "constrained",
    idVar := IdVariable.node [5], indexes := [0],
    payload := PayloadData.scalar [1] }

/-- Witness for C5 at a concrete reach-id group and a concrete node-id
group. -/
theorem testIds_selection_table_witness :
    (exampleTimedGroup.idVar = IdVariable.reach [10, 20] ∧
      testIds exampleTimedGroup exampleStore
        = ([10, 20],
            if exampleTimedGroup.source = "usgs" then exampleStore.usgs_reach_id
            else if exampleTimedGroup.source = "grdc" then exampleStore.grdc_reach_id
            else exampleStore.reaches_reach_id)) ∧
    (exampleNodeGroup.idVar = IdVariable.node [5] ∧
      testIds exampleNodeGroup exampleStore
        = ([5], exampleStore.nodes_node_id)) :=
  ⟨⟨by decide,
    (testIds_selection_table exampleTimedGroup exampleStore).2 [10, 20] (by decide)⟩,
   ⟨by decide,
    (testIds_selection_table exampleNodeGroup exampleStore).1 [5] (by decide)⟩⟩
